import Mathlib

/-!
Verification of the LSTM weight-packing contract and reference LSTM engine
of `jax/experimental/rnn.py`.

Modelling conventions (shallow embedding):
* a tensor is kept in row-major flat or nested-list form over `ℤ`
  (the numeric claims verified here are structural — layout, slicing,
  concatenation and dataflow identities — and hold over any commutative
  ring of scalars; the single-precision float arithmetic of the runtime is
  external to the module under verification, so an exactly computable
  scalar ring is used);
* a shape tuple is a `List ℕ`;
* the per-pseudo-layer weight dictionaries (Python `Dict[int, Array]`
  keyed densely by `0..n-1`) are `List`s indexed by position;
* the elementwise `sigmoid` / `tanh` activations are module-level imports
  in the source (`jax.nn.sigmoid`, `jax.nn.tanh`), i.e. external
  collaborators; the embedding takes them as explicit function parameters.
-/

abbrev Vec := List ℤ
abbrev Mat := List Vec
abbrev Shape := List ℕ

/-- `prod(shape)`: element count of a tensor of this shape. -/
def prodShape (s : Shape) : ℕ := s.foldl (· * ·) 1

/-- Shape of `W_ii|W_if|W_ig|W_io` for pseudo-layer `layer_i`
(source `_W_ih_l`). -/
def W_ih_l (layer_i input_size hidden_size : ℕ) (bidirectional : Bool) : Shape :=
  if layer_i = 0 ∨ (layer_i = 1 ∧ bidirectional = true) then
    [4 * hidden_size, input_size]
  else
    [4 * hidden_size, (if bidirectional then 2 else 1) * hidden_size]

/-- Shape of `W_hi|W_hf|W_hg|W_ho` (source `_W_hh_l`). -/
def W_hh_l (_layer_i _input_size hidden_size : ℕ) (_bidirectional : Bool) : Shape :=
  [4 * hidden_size, hidden_size]

/-- Shape of `b_ii|b_if|b_ig|b_io` (source `_b_ih_l`). -/
def b_ih_l (_layer_i _input_size hidden_size : ℕ) (_bidirectional : Bool) : Shape :=
  [4 * hidden_size]

/-- Shape of `b_hi|b_hf|b_hg|b_ho` (source `_b_hh_l`). -/
def b_hh_l (_layer_i _input_size hidden_size : ℕ) (_bidirectional : Bool) : Shape :=
  [4 * hidden_size]

/-- Flat param shapes in LSTM (source `_get_params_shapes_in_lstm`):
for each pseudo-layer, `W_ih` then `W_hh`; afterwards, for each
pseudo-layer, `b_ih` then `b_hh`. -/
def get_params_shapes_in_lstm (input_size hidden_size num_layers : ℕ)
    (bidirectional : Bool) : List Shape :=
  let num_directions := if bidirectional then 2 else 1
  let num_pseudo_layers := num_layers * num_directions
  ((List.range num_pseudo_layers).flatMap fun i =>
    [W_ih_l i input_size hidden_size bidirectional,
     W_hh_l i input_size hidden_size bidirectional]) ++
  ((List.range num_pseudo_layers).flatMap fun i =>
    [b_ih_l i input_size hidden_size bidirectional,
     b_hh_l i input_size hidden_size bidirectional])

/-- Param count in LSTM (source `get_num_params_in_lstm`):
`sum([prod(shape) for shape in layer_shapes])`. -/
def get_num_params_in_lstm (input_size hidden_size num_layers : ℕ)
    (bidirectional : Bool) : ℕ :=
  ((get_params_shapes_in_lstm input_size hidden_size num_layers
      bidirectional).map prodShape).sum

/-- One assignment `weights[w_offsets:w_offsets + num_elems].reshape(shape)`:
Python slicing clamps at the end of the buffer, and `reshape` fails iff the
slice does not hold exactly `num_elems` elements.  The reshaped array is kept
in row-major flat form (reshaping a contiguous slice row-major and flattening
it row-major is the identity on the slice). -/
def sliceReshape (weights : Vec) (off n : ℕ) : Option Vec :=
  let s := (weights.drop off).take n
  if s.length = n then some s else none

/-- The slicing loop of `unpack_lstm_weights`: walk the shape list in order,
carrying the running element offset `w_offsets`; record for each shape its
start offset and its (flat, row-major) data. Returns the assignments and the
final offset. -/
def unpackSlices (weights : Vec) : List Shape → ℕ → Option (List (Shape × ℕ × Vec) × ℕ)
  | [], off => some ([], off)
  | s :: rest, off =>
    match sliceReshape weights off (prodShape s) with
    | none => none
    | some d =>
      match unpackSlices weights rest (off + prodShape s) with
      | none => none
      | some (tl, fin) => some ((s, off, d) :: tl, fin)

/-- Split a list into the elements at even positions and at odd positions
(the unpack loops assign slices alternately to `W_ih[l]`/`W_hh[l]`, and to
`b_ih[l]`/`b_hh[l]`, for `l = 0, 1, 2, ...`). -/
def deinterleave {α : Type} : List α → List α × List α
  | [] => ([], [])
  | [a] => ([a], [])
  | a :: b :: rest =>
    let p := deinterleave rest
    (a :: p.1, b :: p.2)

/-- Source `unpack_lstm_weights`: slice the flat buffer along the shape list
and distribute the slices into the four per-pseudo-layer maps
`(W_ih, W_hh, b_ih, b_hh)`, each a list indexed by pseudo-layer;
each entry keeps its shape and its row-major data. -/
def unpack_lstm_weights (weights : Vec) (input_size hidden_size num_layers : ℕ)
    (bidirectional : Bool) :
    Option (List (Shape × Vec) × List (Shape × Vec) × List (Shape × Vec) × List (Shape × Vec)) :=
  let flat_shapes := get_params_shapes_in_lstm input_size hidden_size num_layers bidirectional
  match unpackSlices weights flat_shapes 0 with
  | none => none
  | some (slices, _) =>
    let num_directions := if bidirectional then 2 else 1
    let num_pseudo_layers := num_layers * num_directions
    let linear := (slices.take (2 * num_pseudo_layers)).map (fun sd => (sd.1, sd.2.2))
    let biases := (slices.drop (2 * num_pseudo_layers)).map (fun sd => (sd.1, sd.2.2))
    let w := deinterleave linear
    let b := deinterleave biases
    some (w.1, w.2, b.1, b.2)

/-- Interleave two lists, starting with the first. -/
def interleave {α : Type} : List α → List α → List α
  | [], ys => ys
  | x :: xs, [] => x :: xs
  | x :: xs, y :: ys => x :: y :: interleave xs ys

/-- Re-flatten the four unpacked maps in the packed-buffer order:
`W_ih` then `W_hh` per pseudo-layer in index order, then
`b_ih` then `b_hh` per pseudo-layer in index order; each array contributes
its row-major data. -/
def pack_lstm_weights (wih whh bih bhh : List (Shape × Vec)) : Vec :=
  ((interleave wih whh).map Prod.snd).flatten ++ ((interleave bih bhh).map Prod.snd).flatten

/-- Row-by-row dot products: `A @ B.T` for row-major matrices
(`(A @ B.T)[r][s] = dot(A[r], B[s])`). -/
def matMulT (A B : Mat) : Mat :=
  A.map (fun ar => B.map (fun br => (List.zipWith (· * ·) ar br).sum))

/-- `A + b[None]`: broadcast a bias row over every row of `A`. -/
def addBias (A : Mat) (b : Vec) : Mat :=
  A.map (fun row => List.zipWith (· + ·) row b)

/-- Elementwise matrix addition. -/
def matAdd (A B : Mat) : Mat := List.zipWith (List.zipWith (· + ·)) A B

/-- Elementwise (Hadamard) matrix product `A * B`. -/
def matHad (A B : Mat) : Mat := List.zipWith (List.zipWith (· * ·)) A B

/-- Apply a scalar function elementwise to a matrix. -/
def matMap (f : ℤ → ℤ) (A : Mat) : Mat := A.map (List.map f)

/-- `jnp.split(A, 4, axis=0)`: four equal row-blocks of `A`. -/
def split4M (A : Mat) : Mat × Mat × Mat × Mat :=
  let q := A.length / 4
  (A.take q, (A.drop q).take q, (A.drop (2 * q)).take q, (A.drop (3 * q)).take q)

/-- `jnp.split(v, 4, axis=0)` for a vector. -/
def split4V (v : Vec) : Vec × Vec × Vec × Vec :=
  let q := v.length / 4
  (v.take q, (v.drop q).take q, (v.drop (2 * q)).take q, (v.drop (3 * q)).take q)

/-- Source `lstm_cell`: one reference LSTM cell step on a batch.
`carry = (h, c)`, `x` is the current time step's batch of inputs.
Returns `((h', c'), h')` exactly as the source returns
`(h, c), h` after `c = f * c + i * g; h = o * tanh(c)`. -/
def lstm_cell (sigmoid tanh : ℤ → ℤ) (carry : Mat × Mat) (x : Mat)
    (W_ih W_hh : Mat) (b_ih b_hh : Vec) : (Mat × Mat) × Mat :=
  let h := carry.1
  let c := carry.2
  let sw := split4M W_ih
  let sh := split4M W_hh
  let sbi := split4V b_ih
  let sbh := split4V b_hh
  let i := matMap sigmoid (addBias (matAdd (addBias (matMulT x sw.1) sbi.1) (matMulT h sh.1)) sbh.1)
  let f := matMap sigmoid (addBias (matAdd (addBias (matMulT x sw.2.1) sbi.2.1) (matMulT h sh.2.1)) sbh.2.1)
  let g := matMap tanh (addBias (matAdd (addBias (matMulT x sw.2.2.1) sbi.2.2.1) (matMulT h sh.2.2.1)) sbh.2.2.1)
  let o := matMap sigmoid (addBias (matAdd (addBias (matMulT x sw.2.2.2) sbi.2.2.2) (matMulT h sh.2.2.2)) sbh.2.2.2)
  let c2 := matAdd (matHad f c) (matHad i g)
  let h2 := matHad o (matMap tanh c2)
  ((h2, c2), h2)

/-- `jax.lax.scan` specialised to the LSTM carry type: fold `f` over `xs`
threading the carry, collecting the per-step outputs in order. -/
def scanList (f : (Mat × Mat) → Mat → (Mat × Mat) × Mat) :
    (Mat × Mat) → List Mat → (Mat × Mat) × List Mat
  | c, [] => (c, [])
  | c, x :: xs =>
    let s := f c x
    let r := scanList f s.1 xs
    (r.1, s.2 :: r.2)

/-- `jax.lax.scan` with `reverse=True`: the inputs are consumed from last to
first and the collected outputs are re-aligned to the original time order. -/
def scanListRev (f : (Mat × Mat) → Mat → (Mat × Mat) × Mat)
    (c : Mat × Mat) (xs : List Mat) : (Mat × Mat) × List Mat :=
  let r := scanList f c xs.reverse
  (r.1, r.2.reverse)

/-- `x.transpose(1, 0, 2)` on a nested-list 3-D tensor: swap the first two
axes (batch-major ↔ time-major). -/
def transposeBT (x : List Mat) : List Mat :=
  (List.range (x.headD []).length).map (fun j => x.map (fun row => row.getD j []))

/-- `partial(lstm_cell, W_ih=W_ih[l], W_hh=W_hh[l], b_ih=b_ih[l], b_hh=b_hh[l])`:
the cell of pseudo-layer `l`, with the weight maps indexed at `l`. -/
def layerCell (sigmoid tanh : ℤ → ℤ) (W_ih W_hh : List Mat) (b_ih b_hh : List Vec)
    (l : ℕ) : (Mat × Mat) → Mat → (Mat × Mat) × Mat :=
  fun c xt => lstm_cell sigmoid tanh c xt (W_ih.getD l []) (W_hh.getD l [])
    (b_ih.getD l []) (b_hh.getD l [])

/-- Errors surfaced by the reference engine. -/
inductive RnnError : Type
  | unsupported : RnnError
deriving DecidableEq

/-- Source `lstm_ref`: reference LSTM forward pass.
`x` is batch-major `[batch, time, feature]`; `h_0`/`c_0` are indexed by
pseudo-layer; the four weight maps are indexed by pseudo-layer.
Nonzero `dropout` raises `NotImplementedError` (modelled as
`RnnError.unsupported`).  The commented-out ragged-length validation in the
source is absent, i.e. `seq_lengths` is accepted and never read.
In the source's bidirectional loop `for l in range(num_layers * 2)`, every
odd iteration uses the forward output saved by the preceding even
iteration; the fold below performs one even/odd pair per logical layer,
which is the same iteration order. -/
def lstm_ref (sigmoid tanh : ℤ → ℤ) (x h_0 c_0 : List Mat)
    (W_ih W_hh : List Mat) (b_ih b_hh : List Vec)
    (seq_lengths : List ℤ) (input_size hidden_size num_layers : ℕ)
    (dropout : ℚ) (bidirectional : Bool) :
    Except RnnError (List Mat × List Mat × List Mat) :=
  if dropout ≠ 0 then .error .unsupported
  else
    let seq_first_y := transposeBT x
    if bidirectional = false then
      let r := (List.range num_layers).foldl
        (fun acc l =>
          let s := scanList (layerCell sigmoid tanh W_ih W_hh b_ih b_hh l)
            (h_0.getD l [], c_0.getD l []) acc.2.2
          (acc.1 ++ [s.1.1], acc.2.1 ++ [s.1.2], s.2))
        (([], [], seq_first_y) : List Mat × List Mat × List Mat)
      .ok (transposeBT r.2.2, r.1, r.2.1)
    else
      let r := (List.range num_layers).foldl
        (fun acc l =>
          let sf := scanList (layerCell sigmoid tanh W_ih W_hh b_ih b_hh (2 * l))
            (h_0.getD (2 * l) [], c_0.getD (2 * l) []) acc.2.2
          let sb := scanListRev (layerCell sigmoid tanh W_ih W_hh b_ih b_hh (2 * l + 1))
            (h_0.getD (2 * l + 1) [], c_0.getD (2 * l + 1) []) acc.2.2
          let seqY2 := List.zipWith (fun mf mb => List.zipWith (· ++ ·) mf mb) sf.2 sb.2
          (acc.1 ++ [sf.1.1, sb.1.1], acc.2.1 ++ [sf.1.2, sb.1.2], seqY2))
        (([], [], seq_first_y) : List Mat × List Mat × List Mat)
      .ok (transposeBT r.2.2, r.1, r.2.1)

/-- `jnp.zeros_like(seq_lengths)`: same length (shape) and element type,
every entry zero. -/
def zeros_like (v : List ℤ) : List ℤ := v.map (fun _ => 0)

/-- The residuals captured by `lstm_fwd`:
`(x, h_0, c_0, w, seq_lengths, y, workspace, reserve_space)`. -/
abbrev LstmResiduals :=
  List Mat × List Mat × List Mat × Vec × List ℤ × List Mat × Vec × Vec

/-- The signature of the opaque accelerated backward kernel
`rnn_bwd_p.bind`: takes
`(dy, dh_n, dc_n, x, h_0, c_0, w, y, workspace, reserve_space, seq_lengths)`
plus the five config scalars and returns `(dx, dh_0, dc_0, dw)`.
The kernel itself is an external collaborator; `lstm_bwd` is verified for
every possible kernel. -/
abbrev RnnBwdKernel :=
  List Mat → List Mat → List Mat → List Mat → List Mat → List Mat → Vec →
    List Mat → Vec → Vec → List ℤ → ℕ → ℕ → ℕ → ℚ → Bool →
    List Mat × List Mat × List Mat × Vec

/-- Source `lstm_bwd`: unpack the residuals, call the opaque backward
kernel, and return `(dx, dh_0, dc_0, dw, jnp.zeros_like(seq_lengths))`. -/
def lstm_bwd (rnn_bwd : RnnBwdKernel)
    (input_size hidden_size num_layers : ℕ) (dropout : ℚ) (bidirectional : Bool)
    (residuals : LstmResiduals) (gradients : List Mat × List Mat × List Mat) :
    List Mat × List Mat × List Mat × Vec × List ℤ :=
  let x := residuals.1
  let h_0 := residuals.2.1
  let c_0 := residuals.2.2.1
  let w := residuals.2.2.2.1
  let seq_lengths := residuals.2.2.2.2.1
  let y := residuals.2.2.2.2.2.1
  let workspace := residuals.2.2.2.2.2.2.1
  let reserve_space := residuals.2.2.2.2.2.2.2
  let dy := gradients.1
  let dh_n := gradients.2.1
  let dc_n := gradients.2.2
  let r := rnn_bwd dy dh_n dc_n x h_0 c_0 w y workspace reserve_space
    seq_lengths input_size hidden_size num_layers dropout bidirectional
  (r.1, r.2.1, r.2.2.1, r.2.2.2, zeros_like seq_lengths)

/-- `A` is an `m × n` matrix: `m` rows, each of length `n`. -/
def IsMat (A : Mat) (m n : ℕ) : Prop := A.length = m ∧ ∀ r ∈ A, r.length = n

/-- The shared form of the four gate pre-activations of `lstm_cell`:
`act(x·W^T + bi[None] + h·Wh^T + bh[None])` with the source's association
order `((x @ W.T + bi[None]) + h @ Wh.T) + bh[None]`. -/
def gateAct (act : ℤ → ℤ) (x hm : Mat) (W Wh : Mat) (bi bh : Vec) : Mat :=
  matMap act (addBias (matAdd (addBias (matMulT x W) bi) (matMulT hm Wh)) bh)

/-- The new cell state `c' = f⊙c + i⊙g` of `lstm_cell`, written via
`gateAct` and the `split4` projections (definitionally equal to the
corresponding component of `lstm_cell`). -/
def cellC (sigmoid tanh : ℤ → ℤ) (hm cm x Wih Whh : Mat) (bih bhh : Vec) : Mat :=
  matAdd
    (matHad (gateAct sigmoid x hm (split4M Wih).2.1 (split4M Whh).2.1
      (split4V bih).2.1 (split4V bhh).2.1) cm)
    (matHad (gateAct sigmoid x hm (split4M Wih).1 (split4M Whh).1
      (split4V bih).1 (split4V bhh).1)
      (gateAct tanh x hm (split4M Wih).2.2.1 (split4M Whh).2.2.1
        (split4V bih).2.2.1 (split4V bhh).2.2.1))

/-- The new hidden state `h' = o⊙tanh(c')` of `lstm_cell`, via `gateAct`. -/
def cellH (sigmoid tanh : ℤ → ℤ) (hm cm x Wih Whh : Mat) (bih bhh : Vec) : Mat :=
  matHad (gateAct sigmoid x hm (split4M Wih).2.2.2 (split4M Whh).2.2.2
    (split4V bih).2.2.2 (split4V bhh).2.2.2)
    (matMap tanh (cellC sigmoid tanh hm cm x Wih Whh bih bhh))

/-! ### Lemmas about the slicing loop -/

theorem sliceReshape_some (weights : Vec) (off n : ℕ)
    (h : off + n ≤ weights.length) :
    sliceReshape weights off n = some ((weights.drop off).take n) := by
  unfold sliceReshape
  have hlen : ((weights.drop off).take n).length = n := by
    rw [List.length_take, List.length_drop]
    exact Nat.min_eq_left (by omega)
  simp [hlen]

theorem sliceReshape_none (weights : Vec) (off n : ℕ)
    (hoffle : off ≤ weights.length) (h : weights.length < off + n) :
    sliceReshape weights off n = none := by
  unfold sliceReshape
  have hlen : ((weights.drop off).take n).length ≠ n := by
    rw [List.length_take, List.length_drop]
    have hmin : min n (weights.length - off) = weights.length - off :=
      Nat.min_eq_right (by omega)
    rw [hmin]
    omega
  simp [hlen]
  omega

theorem unpackSlices_cons (weights : Vec) (s : Shape) (rest : List Shape) (off : ℕ) :
    unpackSlices weights (s :: rest) off =
      match sliceReshape weights off (prodShape s) with
      | none => none
      | some d =>
        match unpackSlices weights rest (off + prodShape s) with
        | none => none
        | some (tl, fin) => some ((s, off, d) :: tl, fin) := rfl

theorem unpackSlices_spec (weights : Vec) (shapes : List Shape) (off : ℕ)
    (h : off + (shapes.map prodShape).sum ≤ weights.length) :
    ∃ slices,
      unpackSlices weights shapes off
        = some (slices, off + (shapes.map prodShape).sum) ∧
      slices.map Prod.fst = shapes ∧
      (∀ e ∈ slices, e.2.2.length = prodShape e.1) ∧
      (slices.map (fun e => e.2.2)).flatten
        = (weights.drop off).take ((shapes.map prodShape).sum) ∧
      slices.Pairwise (fun a b => a.2.1 + a.2.2.length ≤ b.2.1) ∧
      (∀ e ∈ slices, off ≤ e.2.1) := by
  induction shapes generalizing off with
  | nil =>
    refine ⟨[], ?_⟩
    simp [unpackSlices]
  | cons s rest ih =>
    have h1 : off + prodShape s ≤ weights.length := by
      simp only [List.map_cons, List.sum_cons] at h
      omega
    have h2 : (off + prodShape s) + (rest.map prodShape).sum ≤ weights.length := by
      simp only [List.map_cons, List.sum_cons] at h
      omega
    have hslice : ((weights.drop off).take (prodShape s)).length = prodShape s := by
      rw [List.length_take, List.length_drop]
      exact Nat.min_eq_left (by omega)
    obtain ⟨tl, htl, hfst, hlens, hflat, hpw, hoffs⟩ := ih (off + prodShape s) h2
    refine ⟨(s, off, (weights.drop off).take (prodShape s)) :: tl, ?_, ?_, ?_, ?_, ?_, ?_⟩
    · rw [unpackSlices_cons, sliceReshape_some weights off (prodShape s) h1, htl]
      simp only [List.map_cons, List.sum_cons, ← Nat.add_assoc]
    · simpa using hfst
    · intro e he
      rcases List.mem_cons.mp he with he | he
      · subst he
        simpa using hslice
      · exact hlens e he
    · simp only [List.map_cons, List.flatten_cons, hflat, List.sum_cons]
      rw [List.take_add, List.drop_drop]
    · refine List.pairwise_cons.mpr ⟨?_, hpw⟩
      intro b hb
      have hb2 := hoffs b hb
      simp only [hslice]
      omega
    · intro e he
      rcases List.mem_cons.mp he with he | he
      · subst he; simp
      · exact le_trans (Nat.le_add_right off (prodShape s)) (hoffs e he)

theorem unpackSlices_none_iff (weights : Vec) (shapes : List Shape) (off : ℕ)
    (hoff : off ≤ weights.length) :
    unpackSlices weights shapes off = none ↔
      weights.length < off + (shapes.map prodShape).sum := by
  induction shapes generalizing off with
  | nil =>
    simp [unpackSlices]
    omega
  | cons s rest ih =>
    rw [unpackSlices_cons]
    by_cases hs : off + prodShape s ≤ weights.length
    · rw [sliceReshape_some weights off (prodShape s) hs]
      cases hrec : unpackSlices weights rest (off + prodShape s) with
      | none =>
        have := (ih (off + prodShape s) hs).mp hrec
        simp only [List.map_cons, List.sum_cons]
        constructor
        · intro _; omega
        · intro _; trivial
      | some p =>
        have hnot : ¬ (weights.length < (off + prodShape s) + (rest.map prodShape).sum) := by
          intro hlt
          rw [(ih (off + prodShape s) hs).mpr hlt] at hrec
          exact Option.noConfusion hrec
        simp only [List.map_cons, List.sum_cons]
        constructor
        · intro hcontr
          exact absurd hcontr (by cases p with | mk tl fin => simp)
        · intro hlt
          exact absurd (by omega : weights.length < (off + prodShape s) + (rest.map prodShape).sum) hnot
    · rw [sliceReshape_none weights off (prodShape s) hoff (by omega)]
      simp only [List.map_cons, List.sum_cons]
      constructor
      · intro _; omega
      · intro _; trivial

theorem interleave_deinterleave {α : Type} (l : List α) :
    interleave (deinterleave l).1 (deinterleave l).2 = l := by
  induction l using deinterleave.induct with
  | case1 => simp [deinterleave, interleave]
  | case2 a => simp [deinterleave, interleave]
  | case3 a b rest ih =>
    simp only [deinterleave]
    simpa [interleave] using ih

theorem flatMapPair_length {α : Type} (N : ℕ) (f g : ℕ → α) :
    ((List.range N).flatMap (fun i => [f i, g i])).length = 2 * N := by
  induction N with
  | zero => simp
  | succ n ih =>
    rw [List.range_succ, List.flatMap_append, List.length_append, ih]
    simp
    omega

theorem flatMapPair_getD {α : Type} (N : ℕ) (f g : ℕ → α) (d : α) (i : ℕ)
    (hi : i < N) :
    ((List.range N).flatMap (fun j => [f j, g j])).getD (2 * i) d = f i ∧
    ((List.range N).flatMap (fun j => [f j, g j])).getD (2 * i + 1) d = g i := by
  induction N with
  | zero => omega
  | succ n ih =>
    rw [List.range_succ, List.flatMap_append]
    have hlen := flatMapPair_length n f g
    by_cases h : i < n
    · rw [List.getD_append _ _ d (2 * i) (by omega),
        List.getD_append _ _ d (2 * i + 1) (by omega)]
      exact ih h
    · have hin : i = n := by omega
      subst hin
      rw [List.getD_append_right _ _ d (2 * i) (by omega),
        List.getD_append_right _ _ d (2 * i + 1) (by omega), hlen]
      constructor
      · have : 2 * i - 2 * i = 0 := by omega
        rw [this]
        rfl
      · have : 2 * i + 1 - 2 * i = 1 := by omega
        rw [this]
        rfl

/-! ### Claim theorems: packing contract -/

/-- C1 (round-trip packing): for every configuration and every buffer whose
length equals `get_num_params_in_lstm`, flattening each array returned by
`unpack_lstm_weights` row-major and concatenating them in the unpack order
(`W_ih` then `W_hh` per pseudo-layer in index order, then `b_ih` then `b_hh`
per pseudo-layer in index order — `pack_lstm_weights`) reproduces the
original buffer element-for-element. -/
theorem unpack_pack_roundtrip (weights : Vec) (input_size hidden_size num_layers : ℕ)
    (bidirectional : Bool)
    (hlen : weights.length = get_num_params_in_lstm input_size hidden_size num_layers bidirectional) :
    (unpack_lstm_weights weights input_size hidden_size num_layers bidirectional).map
      (fun t => pack_lstm_weights t.1 t.2.1 t.2.2.1 t.2.2.2) = some weights := by
  have hsum2 : ((get_params_shapes_in_lstm input_size hidden_size num_layers
      bidirectional).map prodShape).sum
      = get_num_params_in_lstm input_size hidden_size num_layers bidirectional := rfl
  have hsum : 0 + ((get_params_shapes_in_lstm input_size hidden_size num_layers
      bidirectional).map prodShape).sum ≤ weights.length := by
    rw [hlen, hsum2]
    omega
  obtain ⟨slices, hsl, _hfst, _hlens, hflat, _hpw, _hoffs⟩ :=
    unpackSlices_spec weights
      (get_params_shapes_in_lstm input_size hidden_size num_layers bidirectional) 0 hsum
  simp only [unpack_lstm_weights, hsl]
  show some _ = some weights
  congr 1
  beta_reduce
  unfold pack_lstm_weights
  rw [interleave_deinterleave, interleave_deinterleave]
  rw [List.map_map, List.map_map, ← List.flatten_append, ← List.map_append,
    List.take_append_drop]
  have hcomp : (Prod.snd ∘ fun sd : Shape × ℕ × Vec => (sd.1, sd.2.2))
      = fun e : Shape × ℕ × Vec => e.2.2 := rfl
  rw [hcomp, hflat, List.drop_zero, hsum2, ← hlen]
  exact List.take_length weights

/-- Witness for `unpack_pack_roundtrip` at the configuration
`(input_size, hidden_size, num_layers, bidirectional) = (1, 1, 1, false)`
(16 parameters) and the buffer `0, 1, ..., 15`. -/
theorem unpack_pack_roundtrip_witness :
    ((List.range 16).map (fun k => (k : ℤ))).length
        = get_num_params_in_lstm 1 1 1 false ∧
    (unpack_lstm_weights ((List.range 16).map (fun k => (k : ℤ))) 1 1 1 false).map
      (fun t => pack_lstm_weights t.1 t.2.1 t.2.2.1 t.2.2.2)
        = some ((List.range 16).map (fun k => (k : ℤ))) :=
  ⟨by decide, unpack_pack_roundtrip _ 1 1 1 false (by decide)⟩

/-- C2 (shape coverage): the sum over the shape list of the product of each
shape's dimensions equals `get_num_params_in_lstm`, and the slicing loop of
`unpack_lstm_weights` applied to a buffer of exactly that length consumes the
buffer exactly to its end: the running offset after the last assignment is
the buffer length (no leftover, no shortfall — every slice holds exactly
`prod(shape)` elements) and the slices are pairwise disjoint
(each one ends no later than the next one starts). -/
theorem shapes_cover_buffer_exactly (input_size hidden_size num_layers : ℕ)
    (bidirectional : Bool) (weights : Vec)
    (hlen : weights.length = get_num_params_in_lstm input_size hidden_size num_layers bidirectional) :
    ((get_params_shapes_in_lstm input_size hidden_size num_layers bidirectional).map
        prodShape).sum
      = get_num_params_in_lstm input_size hidden_size num_layers bidirectional ∧
    ∃ slices,
      unpackSlices weights
          (get_params_shapes_in_lstm input_size hidden_size num_layers bidirectional) 0
        = some (slices, weights.length) ∧
      (∀ e ∈ slices, e.2.2.length = prodShape e.1) ∧
      slices.Pairwise (fun a b => a.2.1 + a.2.2.length ≤ b.2.1) := by
  have hsum2 : ((get_params_shapes_in_lstm input_size hidden_size num_layers
      bidirectional).map prodShape).sum
      = get_num_params_in_lstm input_size hidden_size num_layers bidirectional := rfl
  refine ⟨hsum2, ?_⟩
  have hsum : 0 + ((get_params_shapes_in_lstm input_size hidden_size num_layers
      bidirectional).map prodShape).sum ≤ weights.length := by
    rw [hlen, hsum2]
    omega
  obtain ⟨slices, hsl, _hfst, hlens, _hflat, hpw, _hoffs⟩ :=
    unpackSlices_spec weights
      (get_params_shapes_in_lstm input_size hidden_size num_layers bidirectional) 0 hsum
  refine ⟨slices, ?_, hlens, hpw⟩
  rw [hsl, Nat.zero_add, hsum2, ← hlen]

/-- Witness for `shapes_cover_buffer_exactly` at configuration
`(1, 1, 1, false)` and the all-zero buffer of length 16. -/
theorem shapes_cover_buffer_exactly_witness :
    (List.replicate 16 (0 : ℤ)).length = get_num_params_in_lstm 1 1 1 false ∧
    (((get_params_shapes_in_lstm 1 1 1 false).map prodShape).sum
        = get_num_params_in_lstm 1 1 1 false ∧
     ∃ slices,
       unpackSlices (List.replicate 16 (0 : ℤ)) (get_params_shapes_in_lstm 1 1 1 false) 0
         = some (slices, (List.replicate 16 (0 : ℤ)).length) ∧
       (∀ e ∈ slices, e.2.2.length = prodShape e.1) ∧
       slices.Pairwise (fun a b => a.2.1 + a.2.2.length ≤ b.2.1)) :=
  ⟨by decide, shapes_cover_buffer_exactly 1 1 1 false _ (by decide)⟩

/-- C3 (emitted shapes): in the shape list produced by
`get_params_shapes_in_lstm`, the shape emitted for `W_ih` of pseudo-layer `i`
(position `2*i`) is `(4*hidden_size, input_size)` when `i = 0`, or when
`i = 1` and `bidirectional`, and otherwise is
`(4*hidden_size, num_directions*hidden_size)`; the shape emitted for `W_hh`
(position `2*i + 1`) is always `(4*hidden_size, hidden_size)`; and both bias
shapes (positions `2*N + 2*i` and `2*N + 2*i + 1`, where `N` is the number of
pseudo-layers) are always `(4*hidden_size,)`. -/
theorem emitted_shapes_correct (input_size hidden_size num_layers : ℕ)
    (bidirectional : Bool) (i : ℕ)
    (hi : i < num_layers * (if bidirectional then 2 else 1)) :
    ((i = 0 ∨ (i = 1 ∧ bidirectional = true)) →
      (get_params_shapes_in_lstm input_size hidden_size num_layers bidirectional).getD
        (2 * i) [] = [4 * hidden_size, input_size]) ∧
    (¬(i = 0 ∨ (i = 1 ∧ bidirectional = true)) →
      (get_params_shapes_in_lstm input_size hidden_size num_layers bidirectional).getD
        (2 * i) [] = [4 * hidden_size, (if bidirectional then 2 else 1) * hidden_size]) ∧
    (get_params_shapes_in_lstm input_size hidden_size num_layers bidirectional).getD
      (2 * i + 1) [] = [4 * hidden_size, hidden_size] ∧
    (get_params_shapes_in_lstm input_size hidden_size num_layers bidirectional).getD
      (2 * (num_layers * (if bidirectional then 2 else 1)) + 2 * i) [] = [4 * hidden_size] ∧
    (get_params_shapes_in_lstm input_size hidden_size num_layers bidirectional).getD
      (2 * (num_layers * (if bidirectional then 2 else 1)) + 2 * i + 1) [] = [4 * hidden_size] := by
  set N := num_layers * (if bidirectional then 2 else 1) with hN
  have hlenA := flatMapPair_length N
    (fun j => W_ih_l j input_size hidden_size bidirectional)
    (fun j => W_hh_l j input_size hidden_size bidirectional)
  have hgetW := flatMapPair_getD N
    (fun j => W_ih_l j input_size hidden_size bidirectional)
    (fun j => W_hh_l j input_size hidden_size bidirectional) [] i hi
  have hgetB := flatMapPair_getD N
    (fun j => b_ih_l j input_size hidden_size bidirectional)
    (fun j => b_hh_l j input_size hidden_size bidirectional) [] i hi
  have hshapes : get_params_shapes_in_lstm input_size hidden_size num_layers bidirectional
      = ((List.range N).flatMap fun j =>
          [W_ih_l j input_size hidden_size bidirectional,
           W_hh_l j input_size hidden_size bidirectional]) ++
        ((List.range N).flatMap fun j =>
          [b_ih_l j input_size hidden_size bidirectional,
           b_hh_l j input_size hidden_size bidirectional]) := rfl
  rw [hshapes]
  rw [List.getD_append _ _ [] (2 * i) (by omega),
    List.getD_append _ _ [] (2 * i + 1) (by omega),
    List.getD_append_right _ _ [] (2 * N + 2 * i) (by omega),
    List.getD_append_right _ _ [] (2 * N + 2 * i + 1) (by omega), hlenA]
  have e1 : 2 * N + 2 * i - 2 * N = 2 * i := by omega
  have e2 : 2 * N + 2 * i + 1 - 2 * N = 2 * i + 1 := by omega
  rw [e1, e2]
  refine ⟨?_, ?_, ?_, ?_, ?_⟩
  · intro hcond
    rw [hgetW.1]
    show W_ih_l i input_size hidden_size bidirectional = _
    unfold W_ih_l
    rw [if_pos hcond]
  · intro hcond
    rw [hgetW.1]
    show W_ih_l i input_size hidden_size bidirectional = _
    unfold W_ih_l
    rw [if_neg hcond]
  · rw [hgetW.2]
    rfl
  · rw [hgetB.1]
    rfl
  · rw [hgetB.2]
    rfl

/-- Witness for `emitted_shapes_correct` at configuration `(2, 3, 2, false)`
and pseudo-layer `i = 1` (the non-first-layer branch). -/
theorem emitted_shapes_correct_witness :
    (1 < 2 * (if false then 2 else 1)) ∧
    (((1 = 0 ∨ (1 = 1 ∧ false = true)) →
      (get_params_shapes_in_lstm 2 3 2 false).getD 2 [] = [4 * 3, 2]) ∧
    (¬(1 = 0 ∨ (1 = 1 ∧ false = true)) →
      (get_params_shapes_in_lstm 2 3 2 false).getD 2 [] = [4 * 3, (if false then 2 else 1) * 3]) ∧
    (get_params_shapes_in_lstm 2 3 2 false).getD 3 [] = [4 * 3, 3] ∧
    (get_params_shapes_in_lstm 2 3 2 false).getD (2 * (2 * (if false then 2 else 1)) + 2 * 1) []
      = [4 * 3] ∧
    (get_params_shapes_in_lstm 2 3 2 false).getD (2 * (2 * (if false then 2 else 1)) + 2 * 1 + 1) []
      = [4 * 3]) :=
  ⟨by decide, emitted_shapes_correct 2 3 2 false 1 (by decide)⟩

/-- C4 counterexample: `unpack_lstm_weights` does **not** fail on every
buffer whose length differs from `get_num_params_in_lstm`: a buffer of
length 17 for configuration `(1, 1, 1, false)` (which needs 16 parameters)
is accepted — the slicing loop simply never reads the final element, and no
length check is performed before slicing. -/
theorem unpack_accepts_overlong_buffer :
    (List.replicate 17 (0 : ℤ)).length ≠ get_num_params_in_lstm 1 1 1 false ∧
    (unpack_lstm_weights (List.replicate 17 (0 : ℤ)) 1 1 1 false).isSome = true := by
  decide

/-- C4 amended: `unpack_lstm_weights` fails exactly when the buffer is
**shorter** than `get_num_params_in_lstm` (the failure arises during slicing,
at the first slice whose `reshape` comes up short, not from a pre-check);
a buffer longer than required is accepted, its trailing elements ignored. -/
theorem unpack_fails_iff_buffer_short (weights : Vec)
    (input_size hidden_size num_layers : ℕ) (bidirectional : Bool) :
    unpack_lstm_weights weights input_size hidden_size num_layers bidirectional = none ↔
      weights.length < get_num_params_in_lstm input_size hidden_size num_layers bidirectional := by
  have hc : get_num_params_in_lstm input_size hidden_size num_layers bidirectional
      = ((get_params_shapes_in_lstm input_size hidden_size num_layers bidirectional).map
          prodShape).sum := rfl
  have hiff := unpackSlices_none_iff weights
    (get_params_shapes_in_lstm input_size hidden_size num_layers bidirectional) 0
    (Nat.zero_le _)
  cases hs : unpackSlices weights
      (get_params_shapes_in_lstm input_size hidden_size num_layers bidirectional) 0 with
  | none =>
    simp only [unpack_lstm_weights, hs]
    constructor
    · intro _
      have := hiff.mp hs
      omega
    · intro _
      trivial
  | some p =>
    simp only [unpack_lstm_weights, hs]
    constructor
    · intro hcontr
      exact absurd hcontr (by simp)
    · intro hlt
      have hnone : unpackSlices weights
          (get_params_shapes_in_lstm input_size hidden_size num_layers bidirectional) 0
          = none := hiff.mpr (by omega)
      rw [hnone] at hs
      exact Option.noConfusion hs

/-! ### Claim theorems: reference engine error handling and hyperproperties -/

/-- C5 (dropout rejection): for every nonzero `dropout`, `lstm_ref` fails
with `RnnError.unsupported` (the source's `NotImplementedError`) and
produces no output tensors; for `dropout = 0` it does not raise — it
returns an `.ok` result. -/
theorem lstm_ref_dropout_rejection (sigmoid tanh : ℤ → ℤ) (x h_0 c_0 : List Mat)
    (W_ih W_hh : List Mat) (b_ih b_hh : List Vec) (seq_lengths : List ℤ)
    (input_size hidden_size num_layers : ℕ) (bidirectional : Bool) :
    (∀ dropout : ℚ, dropout ≠ 0 →
      lstm_ref sigmoid tanh x h_0 c_0 W_ih W_hh b_ih b_hh seq_lengths
        input_size hidden_size num_layers dropout bidirectional
        = .error .unsupported) ∧
    ∃ out, lstm_ref sigmoid tanh x h_0 c_0 W_ih W_hh b_ih b_hh seq_lengths
        input_size hidden_size num_layers 0 bidirectional = .ok out := by
  constructor
  · intro dropout hd
    unfold lstm_ref
    rw [if_pos hd]
  · unfold lstm_ref
    rw [if_neg (by simp)]
    cases bidirectional with
    | false => exact ⟨_, rfl⟩
    | true => exact ⟨_, rfl⟩

/-- Witness for `lstm_ref_dropout_rejection` on a concrete tiny input:
`dropout = 1/2` is rejected and `dropout = 0` yields an `.ok` result. -/
theorem lstm_ref_dropout_rejection_witness :
    ((1 : ℚ) / 2 ≠ 0 ∧
      lstm_ref id id [[[1]]] [[[0]]] [[[0]]] [[[1], [1], [1], [1]]]
        [[[1], [1], [1], [1]]] [[0, 0, 0, 0]] [[0, 0, 0, 0]] [1] 1 1 1 (1 / 2) false
        = .error .unsupported) ∧
    ∃ out, lstm_ref id id [[[1]]] [[[0]]] [[[0]]] [[[1], [1], [1], [1]]]
        [[[1], [1], [1], [1]]] [[0, 0, 0, 0]] [[0, 0, 0, 0]] [1] 1 1 1 0 false
        = .ok out :=
  ⟨⟨by norm_num,
    (lstm_ref_dropout_rejection id id [[[1]]] [[[0]]] [[[0]]] [[[1], [1], [1], [1]]]
      [[[1], [1], [1], [1]]] [[0, 0, 0, 0]] [[0, 0, 0, 0]] [1] 1 1 1 false).1
      (1 / 2) (by norm_num)⟩,
   (lstm_ref_dropout_rejection id id [[[1]]] [[[0]]] [[[0]]] [[[1], [1], [1], [1]]]
      [[[1], [1], [1], [1]]] [[0, 0, 0, 0]] [[0, 0, 0, 0]] [1] 1 1 1 false).2⟩

/-- C10 (seq_lengths non-interference): two calls to `lstm_ref` that agree
on everything except `seq_lengths` return identical `(y, h_n, c_n)`; the
ragged-length validation is commented out in the source and `seq_lengths`
is never read in the computation. -/
theorem lstm_ref_ignores_seq_lengths (sigmoid tanh : ℤ → ℤ) (x h_0 c_0 : List Mat)
    (W_ih W_hh : List Mat) (b_ih b_hh : List Vec) (s1 s2 : List ℤ)
    (input_size hidden_size num_layers : ℕ) (dropout : ℚ) (bidirectional : Bool) :
    lstm_ref sigmoid tanh x h_0 c_0 W_ih W_hh b_ih b_hh s1
      input_size hidden_size num_layers dropout bidirectional =
    lstm_ref sigmoid tanh x h_0 c_0 W_ih W_hh b_ih b_hh s2
      input_size hidden_size num_layers dropout bidirectional := rfl

/-- C9 (seq_lengths gradient): for every backward kernel, residual bundle
and gradient bundle, the gradient returned by `lstm_bwd` for `seq_lengths`
has the same length (shape) as `seq_lengths` — and, being `List ℤ`, the same
element type — and every element is zero. -/
theorem lstm_bwd_seq_lengths_grad_zero (rnn_bwd : RnnBwdKernel)
    (input_size hidden_size num_layers : ℕ) (dropout : ℚ) (bidirectional : Bool)
    (residuals : LstmResiduals) (gradients : List Mat × List Mat × List Mat) :
    (lstm_bwd rnn_bwd input_size hidden_size num_layers dropout bidirectional
        residuals gradients).2.2.2.2.length = residuals.2.2.2.2.1.length ∧
    ∀ v ∈ (lstm_bwd rnn_bwd input_size hidden_size num_layers dropout bidirectional
        residuals gradients).2.2.2.2, v = (0 : ℤ) := by
  unfold lstm_bwd zeros_like
  constructor
  · simp
  · intro v hv
    simp at hv
    exact hv.2

theorem split4M_eq (A : Mat) (hsz : ℕ) (hA : A.length = 4 * hsz) :
    split4M A = (A.take hsz, (A.drop hsz).take hsz,
      (A.drop (2 * hsz)).take hsz, (A.drop (3 * hsz)).take hsz) := by
  have hq : A.length / 4 = hsz := by rw [hA]; omega
  simp only [split4M, hq]

theorem split4V_eq (v : Vec) (hsz : ℕ) (hv : v.length = 4 * hsz) :
    split4V v = (v.take hsz, (v.drop hsz).take hsz,
      (v.drop (2 * hsz)).take hsz, (v.drop (3 * hsz)).take hsz) := by
  have hq : v.length / 4 = hsz := by rw [hv]; omega
  simp only [split4V, hq]

/-- C6 (cell update): one step of the reference cell on previous state
`(h, c)` and input `x` computes
`i = sigmoid(x·W_ii^T + b_ii + h·W_hi^T + b_hi)`,
`f = sigmoid(x·W_if^T + b_if + h·W_hf^T + b_hf)`,
`g = tanh(x·W_ig^T + b_ig + h·W_hg^T + b_hg)`,
`o = sigmoid(x·W_io^T + b_io + h·W_ho^T + b_ho)`,
`c' = f⊙c + i⊙g`, `h' = o⊙tanh(c')`, where the per-gate matrices and biases
are the four equal contiguous row-slices of `W_ih`/`W_hh`/`b_ih`/`b_hh`,
in the fixed order input, forget, candidate, output. -/
theorem lstm_cell_gate_formula (sigmoid tanh : ℤ → ℤ) (h c x : Mat)
    (W_ih W_hh : Mat) (b_ih b_hh : Vec) (hsz : ℕ)
    (hWi : W_ih.length = 4 * hsz) (hWh : W_hh.length = 4 * hsz)
    (hbi : b_ih.length = 4 * hsz) (hbh : b_hh.length = 4 * hsz) :
    lstm_cell sigmoid tanh (h, c) x W_ih W_hh b_ih b_hh =
      (let W_ii := W_ih.take hsz
       let W_if := (W_ih.drop hsz).take hsz
       let W_ig := (W_ih.drop (2 * hsz)).take hsz
       let W_io := (W_ih.drop (3 * hsz)).take hsz
       let W_hi := W_hh.take hsz
       let W_hf := (W_hh.drop hsz).take hsz
       let W_hg := (W_hh.drop (2 * hsz)).take hsz
       let W_ho := (W_hh.drop (3 * hsz)).take hsz
       let b_ii := b_ih.take hsz
       let b_if := (b_ih.drop hsz).take hsz
       let b_ig := (b_ih.drop (2 * hsz)).take hsz
       let b_io := (b_ih.drop (3 * hsz)).take hsz
       let b_hi := b_hh.take hsz
       let b_hf := (b_hh.drop hsz).take hsz
       let b_hg := (b_hh.drop (2 * hsz)).take hsz
       let b_ho := (b_hh.drop (3 * hsz)).take hsz
       let i := matMap sigmoid (addBias (matAdd (addBias (matMulT x W_ii) b_ii) (matMulT h W_hi)) b_hi)
       let f := matMap sigmoid (addBias (matAdd (addBias (matMulT x W_if) b_if) (matMulT h W_hf)) b_hf)
       let g := matMap tanh (addBias (matAdd (addBias (matMulT x W_ig) b_ig) (matMulT h W_hg)) b_hg)
       let o := matMap sigmoid (addBias (matAdd (addBias (matMulT x W_io) b_io) (matMulT h W_ho)) b_ho)
       let c2 := matAdd (matHad f c) (matHad i g)
       let h2 := matHad o (matMap tanh c2)
       ((h2, c2), h2)) := by
  unfold lstm_cell
  rw [split4M_eq W_ih hsz hWi, split4M_eq W_hh hsz hWh,
    split4V_eq b_ih hsz hbi, split4V_eq b_hh hsz hbh]

/-- Witness for `lstm_cell_gate_formula`: concrete one-unit evaluation
(`hsz = 1`, identity activations), checked against the hand-computed value
of the gate formula. -/
theorem lstm_cell_gate_formula_witness :
    ([[(1 : ℤ)], [2], [3], [4]].length = 4 * 1) ∧
    lstm_cell id id ([[1]], [[2]]) [[3]] [[1], [2], [3], [4]] [[5], [6], [7], [8]]
      [1, 2, 3, 4] [0, 0, 0, 0] = (([[4776]], [[199]]), [[4776]]) :=
  ⟨by decide,
   (lstm_cell_gate_formula id id [[1]] [[2]] [[3]] [[1], [2], [3], [4]]
      [[5], [6], [7], [8]] [1, 2, 3, 4] [0, 0, 0, 0] 1
      (by decide) (by decide) (by decide) (by decide)).trans (by decide)⟩

/-! ### Shape lemmas for the reference engine -/

theorem lstm_cell_eq (sigmoid tanh : ℤ → ℤ) (hm cm x Wih Whh : Mat) (bih bhh : Vec) :
    lstm_cell sigmoid tanh (hm, cm) x Wih Whh bih bhh
      = ((cellH sigmoid tanh hm cm x Wih Whh bih bhh,
          cellC sigmoid tanh hm cm x Wih Whh bih bhh),
         cellH sigmoid tanh hm cm x Wih Whh bih bhh) := rfl

theorem mem_zipWith_exists {α β γ : Type} (f : α → β → γ) (A : List α) (B : List β)
    (x : γ) (hx : x ∈ List.zipWith f A B) : ∃ a ∈ A, ∃ b ∈ B, x = f a b := by
  induction A generalizing B with
  | nil => simp at hx
  | cons a as ih =>
    cases B with
    | nil => simp at hx
    | cons b bs =>
      simp only [List.zipWith_cons_cons, List.mem_cons] at hx
      rcases hx with rfl | hx
      · exact ⟨a, by simp, b, by simp, rfl⟩
      · obtain ⟨a2, ha2, b2, hb2, rfl⟩ := ih bs hx
        exact ⟨a2, by simp [ha2], b2, by simp [hb2], rfl⟩

theorem matMulT_isMat (A B : Mat) : IsMat (matMulT A B) A.length B.length := by
  constructor
  · simp [matMulT]
  · intro r hr
    simp only [matMulT, List.mem_map] at hr
    obtain ⟨a, _, rfl⟩ := hr
    simp

theorem addBias_isMat (A : Mat) (b : Vec) (m n : ℕ)
    (hA : IsMat A m n) (hb : b.length = n) : IsMat (addBias A b) m n := by
  obtain ⟨hlen, hrows⟩ := hA
  constructor
  · simp [addBias, hlen]
  · intro r hr
    simp only [addBias, List.mem_map] at hr
    obtain ⟨a, ha, rfl⟩ := hr
    simp [List.length_zipWith, hrows a ha, hb]

theorem matAdd_isMat (A B : Mat) (m n : ℕ)
    (hA : IsMat A m n) (hB : IsMat B m n) : IsMat (matAdd A B) m n := by
  obtain ⟨hAl, hAr⟩ := hA
  obtain ⟨hBl, hBr⟩ := hB
  constructor
  · simp [matAdd, List.length_zipWith, hAl, hBl]
  · intro r hr
    simp only [matAdd] at hr
    obtain ⟨a, ha, b, hb, rfl⟩ := mem_zipWith_exists _ _ _ _ hr
    simp [List.length_zipWith, hAr a ha, hBr b hb]

theorem matHad_isMat (A B : Mat) (m n : ℕ)
    (hA : IsMat A m n) (hB : IsMat B m n) : IsMat (matHad A B) m n := by
  obtain ⟨hAl, hAr⟩ := hA
  obtain ⟨hBl, hBr⟩ := hB
  constructor
  · simp [matHad, List.length_zipWith, hAl, hBl]
  · intro r hr
    simp only [matHad] at hr
    obtain ⟨a, ha, b, hb, rfl⟩ := mem_zipWith_exists _ _ _ _ hr
    simp [List.length_zipWith, hAr a ha, hBr b hb]

theorem matMap_isMat (f : ℤ → ℤ) (A : Mat) (m n : ℕ)
    (hA : IsMat A m n) : IsMat (matMap f A) m n := by
  obtain ⟨hAl, hAr⟩ := hA
  constructor
  · simp [matMap, hAl]
  · intro r hr
    simp only [matMap, List.mem_map] at hr
    obtain ⟨a, ha, rfl⟩ := hr
    simp [hAr a ha]

theorem gateAct_isMat (act : ℤ → ℤ) (x hm W Wh : Mat) (bi bh : Vec) (B hsz : ℕ)
    (hx : x.length = B) (hhm : hm.length = B)
    (hW : W.length = hsz) (hWh : Wh.length = hsz)
    (hbi : bi.length = hsz) (hbh : bh.length = hsz) :
    IsMat (gateAct act x hm W Wh bi bh) B hsz := by
  unfold gateAct
  apply matMap_isMat
  apply addBias_isMat _ _ _ _ _ hbh
  apply matAdd_isMat
  · apply addBias_isMat _ _ _ _ _ hbi
    have := matMulT_isMat x W
    rw [hx, hW] at this
    exact this
  · have := matMulT_isMat hm Wh
    rw [hhm, hWh] at this
    exact this

theorem slice_take_drop_length {α : Type} (l : List α) (k q n : ℕ)
    (hl : l.length = n) (hk : k + q ≤ n) : ((l.drop k).take q).length = q := by
  rw [List.length_take, List.length_drop, hl]
  omega

theorem cellC_isMat (sigmoid tanh : ℤ → ℤ) (hm cm x Wih Whh : Mat) (bih bhh : Vec)
    (B hsz : ℕ)
    (hWi : Wih.length = 4 * hsz) (hWh : Whh.length = 4 * hsz)
    (hbi : bih.length = 4 * hsz) (hbh : bhh.length = 4 * hsz)
    (hx : x.length = B) (hhm : hm.length = B) (hcm : IsMat cm B hsz) :
    IsMat (cellC sigmoid tanh hm cm x Wih Whh bih bhh) B hsz := by
  rw [cellC, split4M_eq Wih hsz hWi, split4M_eq Whh hsz hWh,
    split4V_eq bih hsz hbi, split4V_eq bhh hsz hbh]
  apply matAdd_isMat
  · apply matHad_isMat _ _ _ _ _ hcm
    exact gateAct_isMat _ _ _ _ _ _ _ _ _ hx hhm
      (slice_take_drop_length Wih hsz hsz (4 * hsz) hWi (by omega))
      (slice_take_drop_length Whh hsz hsz (4 * hsz) hWh (by omega))
      (slice_take_drop_length bih hsz hsz (4 * hsz) hbi (by omega))
      (slice_take_drop_length bhh hsz hsz (4 * hsz) hbh (by omega))
  · apply matHad_isMat
    · exact gateAct_isMat _ _ _ _ _ _ _ _ _ hx hhm
        (by rw [List.length_take, hWi]; omega)
        (by rw [List.length_take, hWh]; omega)
        (by rw [List.length_take, hbi]; omega)
        (by rw [List.length_take, hbh]; omega)
    · exact gateAct_isMat _ _ _ _ _ _ _ _ _ hx hhm
        (slice_take_drop_length Wih (2 * hsz) hsz (4 * hsz) hWi (by omega))
        (slice_take_drop_length Whh (2 * hsz) hsz (4 * hsz) hWh (by omega))
        (slice_take_drop_length bih (2 * hsz) hsz (4 * hsz) hbi (by omega))
        (slice_take_drop_length bhh (2 * hsz) hsz (4 * hsz) hbh (by omega))

theorem cellH_isMat (sigmoid tanh : ℤ → ℤ) (hm cm x Wih Whh : Mat) (bih bhh : Vec)
    (B hsz : ℕ)
    (hWi : Wih.length = 4 * hsz) (hWh : Whh.length = 4 * hsz)
    (hbi : bih.length = 4 * hsz) (hbh : bhh.length = 4 * hsz)
    (hx : x.length = B) (hhm : hm.length = B) (hcm : IsMat cm B hsz) :
    IsMat (cellH sigmoid tanh hm cm x Wih Whh bih bhh) B hsz := by
  rw [cellH, split4M_eq Wih hsz hWi, split4M_eq Whh hsz hWh,
    split4V_eq bih hsz hbi, split4V_eq bhh hsz hbh]
  apply matHad_isMat
  · exact gateAct_isMat _ _ _ _ _ _ _ _ _ hx hhm
      (slice_take_drop_length Wih (3 * hsz) hsz (4 * hsz) hWi (by omega))
      (slice_take_drop_length Whh (3 * hsz) hsz (4 * hsz) hWh (by omega))
      (slice_take_drop_length bih (3 * hsz) hsz (4 * hsz) hbi (by omega))
      (slice_take_drop_length bhh (3 * hsz) hsz (4 * hsz) hbh (by omega))
  · exact matMap_isMat _ _ _ _
      (cellC_isMat sigmoid tanh hm cm x Wih Whh bih bhh B hsz hWi hWh hbi hbh hx hhm hcm)

theorem getLast?_cons_of_ne_nil {α : Type} (a : α) (l : List α) (h : l ≠ []) :
    (a :: l).getLast? = l.getLast? := by
  cases l with
  | nil => exact absurd rfl h
  | cons b t => exact List.getLast?_cons_cons

theorem scanList_length (f : (Mat × Mat) → Mat → (Mat × Mat) × Mat)
    (c : Mat × Mat) (xs : List Mat) :
    (scanList f c xs).2.length = xs.length := by
  induction xs generalizing c with
  | nil => rfl
  | cons x xt ih =>
    simp only [scanList]
    simp [ih]

theorem scanList_getLast (f : (Mat × Mat) → Mat → (Mat × Mat) × Mat)
    (hf : ∀ c x, (f c x).2 = (f c x).1.1) (c : Mat × Mat) (xs : List Mat)
    (hne : xs ≠ []) :
    (scanList f c xs).2.getLast? = some (scanList f c xs).1.1 := by
  induction xs generalizing c with
  | nil => exact absurd rfl hne
  | cons x xt ih =>
    cases xt with
    | nil =>
      simp only [scanList]
      simp [hf c x]
    | cons x2 xt2 =>
      have hrec := ih (f c x).1 (by simp)
      have hne2 : (scanList f (f c x).1 (x2 :: xt2)).2 ≠ [] := by
        intro hcontr
        have := scanList_length f (f c x).1 (x2 :: xt2)
        rw [hcontr] at this
        simp at this
      show ((f c x).2 :: (scanList f (f c x).1 (x2 :: xt2)).2).getLast?
        = some (scanList f (f c x).1 (x2 :: xt2)).1.1
      rw [getLast?_cons_of_ne_nil _ _ hne2, hrec]

theorem scanListRev_head (f : (Mat × Mat) → Mat → (Mat × Mat) × Mat)
    (hf : ∀ c x, (f c x).2 = (f c x).1.1) (c : Mat × Mat) (xs : List Mat)
    (hne : xs ≠ []) :
    (scanListRev f c xs).2.head? = some (scanListRev f c xs).1.1 := by
  unfold scanListRev
  simp only [List.head?_reverse]
  exact scanList_getLast f hf c xs.reverse (by simpa using hne)

theorem scanListRev_length (f : (Mat × Mat) → Mat → (Mat × Mat) × Mat)
    (c : Mat × Mat) (xs : List Mat) :
    (scanListRev f c xs).2.length = xs.length := by
  unfold scanListRev
  simp [scanList_length]

theorem scanList_cell_shape (sigmoid tanh : ℤ → ℤ) (Wm Whm : Mat) (bim bhm : Vec)
    (B hsz : ℕ)
    (hWi : Wm.length = 4 * hsz) (hWh : Whm.length = 4 * hsz)
    (hbi : bim.length = 4 * hsz) (hbh : bhm.length = 4 * hsz)
    (xs : List Mat) (hxs : ∀ m ∈ xs, m.length = B)
    (hm cm : Mat) (hhm : hm.length = B) (hcm : IsMat cm B hsz) :
    (scanList (fun c xt => lstm_cell sigmoid tanh c xt Wm Whm bim bhm) (hm, cm) xs).1.1.length = B ∧
    IsMat (scanList (fun c xt => lstm_cell sigmoid tanh c xt Wm Whm bim bhm) (hm, cm) xs).1.2 B hsz ∧
    ∀ y ∈ (scanList (fun c xt => lstm_cell sigmoid tanh c xt Wm Whm bim bhm) (hm, cm) xs).2,
      IsMat y B hsz := by
  induction xs generalizing hm cm with
  | nil =>
    simp only [scanList]
    exact ⟨hhm, hcm, by simp⟩
  | cons xh xt ih =>
    have hxh : xh.length = B := hxs xh (by simp)
    have hxt : ∀ m ∈ xt, m.length = B := fun m hm2 => hxs m (by simp [hm2])
    have hH := cellH_isMat sigmoid tanh hm cm xh Wm Whm bim bhm B hsz hWi hWh hbi hbh hxh hhm hcm
    have hC := cellC_isMat sigmoid tanh hm cm xh Wm Whm bim bhm B hsz hWi hWh hbi hbh hxh hhm hcm
    obtain ⟨ih1, ih2, ih3⟩ := ih hxt
      (cellH sigmoid tanh hm cm xh Wm Whm bim bhm)
      (cellC sigmoid tanh hm cm xh Wm Whm bim bhm) hH.1 hC
    refine ⟨?_, ?_, ?_⟩
    · simpa only [scanList, lstm_cell_eq] using ih1
    · simpa only [scanList, lstm_cell_eq] using ih2
    · intro y hy
      simp only [scanList, lstm_cell_eq, List.mem_cons] at hy
      rcases hy with rfl | hy
      · exact hH
      · exact ih3 y hy

theorem getD_map_range {α : Type} (n j : ℕ) (f : ℕ → α) (d : α) (hj : j < n) :
    ((List.range n).map f).getD j d = f j := by
  have hlen : j < ((List.range n).map f).length := by simpa using hj
  rw [List.getD_eq_getElem _ d hlen, List.getElem_map]
  congr 1
  simp

theorem getD_map_of_lt {α β : Type} (l : List α) (f : α → β) (i : ℕ) (d : β) (d2 : α)
    (hi : i < l.length) :
    (l.map f).getD i d = f (l.getD i d2) := by
  rw [List.getD_eq_getElem _ d (by simpa using hi), List.getD_eq_getElem _ d2 hi,
    List.getElem_map]

theorem transposeBT_length (x : List Mat) :
    (transposeBT x).length = (x.headD []).length := by
  simp [transposeBT]

theorem transposeBT_getD (x : List Mat) (j : ℕ) (hj : j < (x.headD []).length) :
    (transposeBT x).getD j [] = x.map (fun row => row.getD j []) :=
  getD_map_range _ j _ [] hj

theorem transposeBT_mem_length (x : List Mat) (m : Mat) (hm : m ∈ transposeBT x) :
    m.length = x.length := by
  simp only [transposeBT, List.mem_map] at hm
  obtain ⟨j, _, rfl⟩ := hm
  simp

theorem transposeBT_getElem (x : List Mat) (j : ℕ) (hj : j < (transposeBT x).length) :
    (transposeBT x)[j] = x.map (fun row => row.getD j []) := by
  have hj2 : j < (x.headD []).length := by
    rw [transposeBT_length] at hj
    exact hj
  have hj3 : j < ((List.range (x.headD []).length).map
      (fun i => x.map (fun row => row.getD i []))).length := by simpa using hj2
  show ((List.range (x.headD []).length).map
    (fun i => x.map (fun row => row.getD i [])))[j] = _
  rw [List.getElem_map]
  congr 1
  simp

theorem transposeBT_involution (M : List Mat) (T B : ℕ)
    (hT : M.length = T) (hB : ∀ m ∈ M, m.length = B) (hT1 : 0 < T) (hB1 : 0 < B) :
    transposeBT (transposeBT M) = M := by
  have hMne : M ≠ [] := by
    intro h
    rw [h] at hT
    simp at hT
    omega
  have hhead : (M.headD []).length = B := by
    cases M with
    | nil => exact absurd rfl hMne
    | cons a t => exact hB a (by simp)
  have hM2len : (transposeBT M).length = B := by rw [transposeBT_length, hhead]
  have hM2head : ((transposeBT M).headD []).length = T := by
    cases hM2 : transposeBT M with
    | nil =>
      rw [hM2] at hM2len
      simp at hM2len
      omega
    | cons a t =>
      have ha : a ∈ transposeBT M := by rw [hM2]; simp
      have := transposeBT_mem_length M a ha
      rw [List.headD_cons, this, hT]
  have houter : (transposeBT (transposeBT M)).length = M.length := by
    rw [transposeBT_length, hM2head, hT]
  apply List.ext_getElem houter
  intro t h1 h2
  rw [transposeBT_getElem _ t h1]
  have htM : t < M.length := h2
  apply List.ext_getElem
  · rw [List.length_map, hM2len]
    exact (hB M[t] (List.getElem_mem h2)).symm
  · intro j hj1 hj2
    have hjB : j < B := by
      rw [List.length_map, hM2len] at hj1
      exact hj1
    rw [List.getElem_map,
      transposeBT_getElem M j (by rw [hM2len]; exact hjB),
      getD_map_of_lt M _ t [] [] htM,
      List.getD_eq_getElem M [] htM,
      List.getD_eq_getElem _ [] hj2]

theorem layerCell_eq (sigmoid tanh : ℤ → ℤ) (W_ih W_hh : List Mat)
    (b_ih b_hh : List Vec) (l : ℕ) :
    layerCell sigmoid tanh W_ih W_hh b_ih b_hh l
      = fun c xt => lstm_cell sigmoid tanh c xt (W_ih.getD l []) (W_hh.getD l [])
          (b_ih.getD l []) (b_hh.getD l []) := rfl

theorem lstm_ref_bidi_one (sigmoid tanh : ℤ → ℤ) (x h_0 c_0 : List Mat)
    (W_ih W_hh : List Mat) (b_ih b_hh : List Vec) (s : List ℤ) (inp hsz : ℕ) :
    lstm_ref sigmoid tanh x h_0 c_0 W_ih W_hh b_ih b_hh s inp hsz 1 0 true =
      .ok (transposeBT (List.zipWith (fun mf mb => List.zipWith (· ++ ·) mf mb)
             (scanList (layerCell sigmoid tanh W_ih W_hh b_ih b_hh 0)
               (h_0.getD 0 [], c_0.getD 0 []) (transposeBT x)).2
             (scanListRev (layerCell sigmoid tanh W_ih W_hh b_ih b_hh 1)
               (h_0.getD 1 [], c_0.getD 1 []) (transposeBT x)).2),
           [(scanList (layerCell sigmoid tanh W_ih W_hh b_ih b_hh 0)
               (h_0.getD 0 [], c_0.getD 0 []) (transposeBT x)).1.1,
            (scanListRev (layerCell sigmoid tanh W_ih W_hh b_ih b_hh 1)
               (h_0.getD 1 [], c_0.getD 1 []) (transposeBT x)).1.1],
           [(scanList (layerCell sigmoid tanh W_ih W_hh b_ih b_hh 0)
               (h_0.getD 0 [], c_0.getD 0 []) (transposeBT x)).1.2,
            (scanListRev (layerCell sigmoid tanh W_ih W_hh b_ih b_hh 1)
               (h_0.getD 1 [], c_0.getD 1 []) (transposeBT x)).1.2]) := rfl

theorem headD_eq_getElem {α : Type} (l : List α) (d : α) (h : 0 < l.length) :
    l.headD d = l[0] := by
  rw [List.headD_eq_head?_getD, List.head?_eq_getElem?,
    (List.getElem?_eq_some_getElem_iff l 0 h).mpr trivial]
  rfl

theorem take_append_eq_left {α : Type} (u v : List α) (n : ℕ) (h : u.length = n) :
    (u ++ v).take n = u := by
  subst h
  exact List.take_left u v

theorem drop_append_eq_right {α : Type} (u v : List α) (n : ℕ) (h : u.length = n) :
    (u ++ v).drop n = v := by
  subst h
  exact List.drop_left u v

/-- C7 amended (bidirectional concatenation): for `num_layers = 1`,
`bidirectional = true` and well-shaped inputs, `lstm_ref` succeeds, the
output `y` has feature dimension `2*hidden_size` at every batch row and
time step, and at the **last** time step the first `hidden_size` features
equal the forward pseudo-layer's final hidden state `h_n[0]`; the reverse
pseudo-layer's final hidden state `h_n[1]` appears in the last
`hidden_size` features of the **first** time step (not the last: the
reverse scan's outputs are re-aligned to the original time order, so its
final state sits at time 0). -/
theorem bidi_concat_alignment (sigmoid tanh : ℤ → ℤ) (x h_0 c_0 : List Mat)
    (W_ih W_hh : List Mat) (b_ih b_hh : List Vec) (s : List ℤ)
    (inp hsz B T : ℕ)
    (hB : x.length = B) (hT : (x.headD []).length = T) (hT1 : 0 < T)
    (hW0 : (W_ih.getD 0 []).length = 4 * hsz) (hW1 : (W_ih.getD 1 []).length = 4 * hsz)
    (hWh0 : (W_hh.getD 0 []).length = 4 * hsz) (hWh1 : (W_hh.getD 1 []).length = 4 * hsz)
    (hb0 : (b_ih.getD 0 []).length = 4 * hsz) (hb1 : (b_ih.getD 1 []).length = 4 * hsz)
    (hbh0 : (b_hh.getD 0 []).length = 4 * hsz) (hbh1 : (b_hh.getD 1 []).length = 4 * hsz)
    (hh0 : (h_0.getD 0 []).length = B) (hh1 : (h_0.getD 1 []).length = B)
    (hc0 : IsMat (c_0.getD 0 []) B hsz) (hc1 : IsMat (c_0.getD 1 []) B hsz) :
    ∃ y h_n c_n,
      lstm_ref sigmoid tanh x h_0 c_0 W_ih W_hh b_ih b_hh s inp hsz 1 0 true
        = .ok (y, h_n, c_n) ∧
      (∀ r < B, ∀ t < T, ((y.getD r []).getD t []).length = 2 * hsz) ∧
      (∀ r < B, ((y.getD r []).getD (T - 1) []).take hsz = (h_n.getD 0 []).getD r []) ∧
      (∀ r < B, ((y.getD r []).getD 0 []).drop hsz = (h_n.getD 1 []).getD r []) := by
  have hseqlen : (transposeBT x).length = T := by rw [transposeBT_length, hT]
  have hseqmem : ∀ m ∈ transposeBT x, m.length = B := fun m hm => by
    rw [transposeBT_mem_length x m hm, hB]
  have hseqne : transposeBT x ≠ [] := by
    intro h
    rw [h] at hseqlen
    simp at hseqlen
    omega
  obtain ⟨Fc, Fys, hFeq⟩ : ∃ p ys, scanList (layerCell sigmoid tanh W_ih W_hh b_ih b_hh 0)
      (h_0.getD 0 [], c_0.getD 0 []) (transposeBT x) = (p, ys) := ⟨_, _, rfl⟩
  obtain ⟨Rc, Rys, hReq⟩ : ∃ p ys, scanListRev (layerCell sigmoid tanh W_ih W_hh b_ih b_hh 1)
      (h_0.getD 1 [], c_0.getD 1 []) (transposeBT x) = (p, ys) := ⟨_, _, rfl⟩
  have hFys : ∀ y ∈ Fys, IsMat y B hsz := by
    have h2 := (scanList_cell_shape sigmoid tanh (W_ih.getD 0 []) (W_hh.getD 0 [])
      (b_ih.getD 0 []) (b_hh.getD 0 []) B hsz hW0 hWh0 hb0 hbh0
      (transposeBT x) hseqmem (h_0.getD 0 []) (c_0.getD 0 []) hh0 hc0).2.2
    rw [show scanList (fun c xt => lstm_cell sigmoid tanh c xt (W_ih.getD 0 [])
        (W_hh.getD 0 []) (b_ih.getD 0 []) (b_hh.getD 0 []))
        (h_0.getD 0 [], c_0.getD 0 []) (transposeBT x) = (Fc, Fys) from hFeq] at h2
    exact h2
  have hFlen : Fys.length = T := by
    have h2 := scanList_length (layerCell sigmoid tanh W_ih W_hh b_ih b_hh 0)
      (h_0.getD 0 [], c_0.getD 0 []) (transposeBT x)
    rw [hFeq] at h2
    rw [show (Fc, Fys).2 = Fys from rfl] at h2
    rw [h2, hseqlen]
  have hFlast : Fys.getLast? = some Fc.1 := by
    have h2 := scanList_getLast (layerCell sigmoid tanh W_ih W_hh b_ih b_hh 0)
      (fun c xt => rfl) (h_0.getD 0 [], c_0.getD 0 []) (transposeBT x) hseqne
    rw [hFeq] at h2
    exact h2
  have hRys : ∀ y ∈ Rys, IsMat y B hsz := by
    have h2 := (scanList_cell_shape sigmoid tanh (W_ih.getD 1 []) (W_hh.getD 1 [])
      (b_ih.getD 1 []) (b_hh.getD 1 []) B hsz hW1 hWh1 hb1 hbh1
      (transposeBT x).reverse (fun m hm => hseqmem m (List.mem_reverse.mp hm))
      (h_0.getD 1 []) (c_0.getD 1 []) hh1 hc1).2.2
    have hR2 : (scanList (layerCell sigmoid tanh W_ih W_hh b_ih b_hh 1)
        (h_0.getD 1 [], c_0.getD 1 []) (transposeBT x).reverse).2.reverse = Rys := by
      have := congrArg Prod.snd hReq
      exact this
    intro y hy
    apply h2
    rw [show scanList (fun c xt => lstm_cell sigmoid tanh c xt (W_ih.getD 1 [])
        (W_hh.getD 1 []) (b_ih.getD 1 []) (b_hh.getD 1 []))
        (h_0.getD 1 [], c_0.getD 1 []) (transposeBT x).reverse
        = scanList (layerCell sigmoid tanh W_ih W_hh b_ih b_hh 1)
        (h_0.getD 1 [], c_0.getD 1 []) (transposeBT x).reverse from rfl]
    rw [← hR2] at hy
    exact List.mem_reverse.mp hy
  have hRlen : Rys.length = T := by
    have h2 := scanListRev_length (layerCell sigmoid tanh W_ih W_hh b_ih b_hh 1)
      (h_0.getD 1 [], c_0.getD 1 []) (transposeBT x)
    rw [hReq] at h2
    rw [show (Rc, Rys).2 = Rys from rfl] at h2
    rw [h2, hseqlen]
  have hRhead : Rys.head? = some Rc.1 := by
    have h2 := scanListRev_head (layerCell sigmoid tanh W_ih W_hh b_ih b_hh 1)
      (fun c xt => rfl) (h_0.getD 1 [], c_0.getD 1 []) (transposeBT x) hseqne
    rw [hReq] at h2
    exact h2
  -- the concatenated sequence
  have hZlen : (List.zipWith (fun mf mb => List.zipWith (· ++ ·) mf mb) Fys Rys).length
      = T := by
    rw [List.length_zipWith, hFlen, hRlen]
    omega
  have hZne : 0 < (List.zipWith (fun mf mb => List.zipWith (· ++ ·) mf mb) Fys Rys).length := by
    omega
  have hZget : ∀ t (ht : t < T),
      (List.zipWith (fun mf mb => List.zipWith (· ++ ·) mf mb) Fys Rys)[t]
        = List.zipWith (· ++ ·) (Fys[t]) (Rys[t]) := by
    intro t ht
    exact List.getElem_zipWith
  have hZrowlen : ∀ t (ht : t < T),
      ((List.zipWith (fun mf mb => List.zipWith (· ++ ·) mf mb) Fys Rys)[t]).length
        = B := by
    intro t ht
    rw [hZget t ht, List.length_zipWith]
    rw [(hFys _ (List.getElem_mem (by omega))).1, (hRys _ (List.getElem_mem (by omega))).1]
    omega
  have hZhead : ((List.zipWith (fun mf mb => List.zipWith (· ++ ·) mf mb) Fys Rys).headD
      []).length = B := by
    rw [headD_eq_getElem _ [] hZne]
    exact hZrowlen 0 hT1
  have hyval : ∀ r, r < B → ∀ t, (ht : t < T) →
      ((transposeBT (List.zipWith (fun mf mb => List.zipWith (· ++ ·) mf mb) Fys Rys)).getD
          r []).getD t []
        = (Fys[t]).getD r [] ++ (Rys[t]).getD r [] := by
    intro r hr t ht
    have htF : t < Fys.length := by omega
    have htR : t < Rys.length := by omega
    have hFt : IsMat (Fys[t]) B hsz := hFys _ (List.getElem_mem htF)
    have hRt : IsMat (Rys[t]) B hsz := hRys _ (List.getElem_mem htR)
    have hrzip : r < (List.zipWith (· ++ ·) (Fys[t]) (Rys[t])).length := by
      rw [List.length_zipWith, hFt.1, hRt.1]
      omega
    rw [transposeBT_getD _ r (by rw [hZhead]; exact hr)]
    rw [getD_map_of_lt _ _ t [] [] (by omega)]
    rw [List.getD_eq_getElem _ [] (show t <
      (List.zipWith (fun mf mb => List.zipWith (· ++ ·) mf mb) Fys Rys).length by omega)]
    rw [hZget t ht]
    rw [List.getD_eq_getElem _ [] hrzip]
    rw [List.getElem_zipWith]
    rw [List.getD_eq_getElem _ [] (show r < (Fys[t]).length by rw [hFt.1]; exact hr)]
    rw [List.getD_eq_getElem _ [] (show r < (Rys[t]).length by rw [hRt.1]; exact hr)]
  refine ⟨transposeBT (List.zipWith (fun mf mb => List.zipWith (· ++ ·) mf mb) Fys Rys),
    [Fc.1, Rc.1], [Fc.2, Rc.2], ?_, ?_, ?_, ?_⟩
  · rw [lstm_ref_bidi_one, hFeq, hReq]
  -- every (row, time) feature vector of y has length 2*hsz
  · intro r hr t ht
    have htF : t < Fys.length := by omega
    have htR : t < Rys.length := by omega
    have hFt : IsMat (Fys[t]) B hsz := hFys _ (List.getElem_mem htF)
    have hRt : IsMat (Rys[t]) B hsz := hRys _ (List.getElem_mem htR)
    have hrowF : ((Fys[t]).getD r []).length = hsz := by
      rw [List.getD_eq_getElem _ [] (show r < (Fys[t]).length by rw [hFt.1]; exact hr)]
      exact hFt.2 _ (List.getElem_mem (by rw [hFt.1]; exact hr))
    have hrowR : ((Rys[t]).getD r []).length = hsz := by
      rw [List.getD_eq_getElem _ [] (show r < (Rys[t]).length by rw [hRt.1]; exact hr)]
      exact hRt.2 _ (List.getElem_mem (by rw [hRt.1]; exact hr))
    rw [hyval r hr t ht, List.length_append, hrowF, hrowR]
    omega
  -- last time step, first half = forward final state
  · intro r hr
    have hTT : T - 1 < T := by omega
    have htF : T - 1 < Fys.length := by omega
    have hFt : IsMat (Fys[T - 1]) B hsz := hFys _ (List.getElem_mem htF)
    have hrowF : ((Fys[T - 1]).getD r []).length = hsz := by
      rw [List.getD_eq_getElem _ [] (show r < (Fys[T - 1]).length by rw [hFt.1]; exact hr)]
      exact hFt.2 _ (List.getElem_mem (by rw [hFt.1]; exact hr))
    have hFlastel : Fys[T - 1] = Fc.1 := by
      rw [List.getLast?_eq_getElem?, hFlen] at hFlast
      have h3 := (List.getElem?_eq_some_getElem_iff Fys (T - 1) htF).mpr trivial
      rw [h3] at hFlast
      exact Option.some.inj hFlast
    rw [hyval r hr (T - 1) hTT]
    rw [take_append_eq_left _ _ hsz hrowF]
    rw [hFlastel]
    rfl
  -- first time step, second half = reverse final state
  · intro r hr
    have htR : 0 < Rys.length := by omega
    have hRt : IsMat (Rys[0]) B hsz := hRys _ (List.getElem_mem htR)
    have htF : 0 < Fys.length := by omega
    have hFt : IsMat (Fys[0]) B hsz := hFys _ (List.getElem_mem htF)
    have hrowF : ((Fys[0]).getD r []).length = hsz := by
      rw [List.getD_eq_getElem _ [] (show r < (Fys[0]).length by rw [hFt.1]; exact hr)]
      exact hFt.2 _ (List.getElem_mem (by rw [hFt.1]; exact hr))
    have hRheadel : Rys[0] = Rc.1 := by
      rw [List.head?_eq_getElem?] at hRhead
      have h3 := (List.getElem?_eq_some_getElem_iff Rys 0 htR).mpr trivial
      rw [h3] at hRhead
      exact Option.some.inj hRhead
    rw [hyval r hr 0 hT1]
    rw [drop_append_eq_right _ _ hsz hrowF]
    rw [hRheadel]
    rfl

/-- C7 counterexample: the claim's second half — "the last `hidden_size`
features **at the last time step** equal the reverse pseudo-layer's final
hidden state `h_n[1]`" — is false.  Concrete instance: one batch row, two
time steps, `hidden_size = 1`, all-zero weights and biases, `c_0 = 1`, and
activation instantiation `sigmoid := (· + 2)`, `tanh := id` (the claim, over
this embedding, quantifies over the external activation functions; the same
misalignment occurs for the runtime's real sigmoid/tanh, since the reverse
scan writes its final state at time 0, not at time `T-1`).  Here `y`'s last
time step's second half is `[4]` while `h_n[1]` is `[[8]]`. -/
theorem bidi_last_step_not_reverse_final :
    lstm_ref (fun v => v + 2) (fun v => v) [[[0], [0]]] [[[0]], [[0]]] [[[1]], [[1]]]
      [[[0], [0], [0], [0]], [[0], [0], [0], [0]]]
      [[[0], [0], [0], [0]], [[0], [0], [0], [0]]]
      [[0, 0, 0, 0], [0, 0, 0, 0]] [[0, 0, 0, 0], [0, 0, 0, 0]]
      [2] 1 1 1 0 true
      = .ok ([[[4, 8], [8, 4]]], [[[8]], [[8]]], [[[4]], [[4]]]) ∧
    ¬ (List.drop 1 ((([[[4, 8], [8, 4]]] : List Mat).getD 0 []).getD 1 [])
        = (([[[8]], [[8]]] : List Mat).getD 1 []).getD 0 []) := by
  constructor
  · rfl
  · decide

/-- Witness for `bidi_concat_alignment` at the counterexample's concrete
configuration (`B = 1`, `T = 2`, `hidden_size = 1`). -/
theorem bidi_concat_alignment_witness :
    ∃ y h_n c_n,
      lstm_ref (fun v => v + 2) (fun v => v) [[[0], [0]]] [[[0]], [[0]]] [[[1]], [[1]]]
        [[[0], [0], [0], [0]], [[0], [0], [0], [0]]]
        [[[0], [0], [0], [0]], [[0], [0], [0], [0]]]
        [[0, 0, 0, 0], [0, 0, 0, 0]] [[0, 0, 0, 0], [0, 0, 0, 0]]
        [2] 1 1 1 0 true = .ok (y, h_n, c_n) ∧
      (∀ r < 1, ∀ t < 2, ((y.getD r []).getD t []).length = 2 * 1) ∧
      (∀ r < 1, ((y.getD r []).getD (2 - 1) []).take 1 = (h_n.getD 0 []).getD r []) ∧
      (∀ r < 1, ((y.getD r []).getD 0 []).drop 1 = (h_n.getD 1 []).getD r []) :=
  bidi_concat_alignment (fun v => v + 2) (fun v => v) [[[0], [0]]] [[[0]], [[0]]]
    [[[1]], [[1]]]
    [[[0], [0], [0], [0]], [[0], [0], [0], [0]]]
    [[[0], [0], [0], [0]], [[0], [0], [0], [0]]]
    [[0, 0, 0, 0], [0, 0, 0, 0]] [[0, 0, 0, 0], [0, 0, 0, 0]]
    [2] 1 1 1 2 (by decide) (by decide) (by decide) (by decide) (by decide)
    (by decide) (by decide) (by decide) (by decide) (by decide) (by decide)
    (by decide) (by decide) ⟨by decide, by decide⟩ ⟨by decide, by decide⟩

theorem lstm_ref_uni_one (sigmoid tanh : ℤ → ℤ) (x h_0 c_0 : List Mat)
    (W_ih W_hh : List Mat) (b_ih b_hh : List Vec) (s : List ℤ) (inp hsz : ℕ) :
    lstm_ref sigmoid tanh x h_0 c_0 W_ih W_hh b_ih b_hh s inp hsz 1 0 false =
      .ok (transposeBT (scanList (layerCell sigmoid tanh W_ih W_hh b_ih b_hh 0)
             (h_0.getD 0 [], c_0.getD 0 []) (transposeBT x)).2,
           [(scanList (layerCell sigmoid tanh W_ih W_hh b_ih b_hh 0)
             (h_0.getD 0 [], c_0.getD 0 []) (transposeBT x)).1.1],
           [(scanList (layerCell sigmoid tanh W_ih W_hh b_ih b_hh 0)
             (h_0.getD 0 [], c_0.getD 0 []) (transposeBT x)).1.2]) := rfl

theorem lstm_ref_uni_two (sigmoid tanh : ℤ → ℤ) (x h_0 c_0 : List Mat)
    (W_ih W_hh : List Mat) (b_ih b_hh : List Vec) (s : List ℤ) (inp hsz : ℕ) :
    lstm_ref sigmoid tanh x h_0 c_0 W_ih W_hh b_ih b_hh s inp hsz 2 0 false =
      .ok (transposeBT (scanList (layerCell sigmoid tanh W_ih W_hh b_ih b_hh 1)
             (h_0.getD 1 [], c_0.getD 1 [])
             (scanList (layerCell sigmoid tanh W_ih W_hh b_ih b_hh 0)
               (h_0.getD 0 [], c_0.getD 0 []) (transposeBT x)).2).2,
           [(scanList (layerCell sigmoid tanh W_ih W_hh b_ih b_hh 0)
               (h_0.getD 0 [], c_0.getD 0 []) (transposeBT x)).1.1,
            (scanList (layerCell sigmoid tanh W_ih W_hh b_ih b_hh 1)
               (h_0.getD 1 [], c_0.getD 1 [])
               (scanList (layerCell sigmoid tanh W_ih W_hh b_ih b_hh 0)
                 (h_0.getD 0 [], c_0.getD 0 []) (transposeBT x)).2).1.1],
           [(scanList (layerCell sigmoid tanh W_ih W_hh b_ih b_hh 0)
               (h_0.getD 0 [], c_0.getD 0 []) (transposeBT x)).1.2,
            (scanList (layerCell sigmoid tanh W_ih W_hh b_ih b_hh 1)
               (h_0.getD 1 [], c_0.getD 1 [])
               (scanList (layerCell sigmoid tanh W_ih W_hh b_ih b_hh 0)
                 (h_0.getD 0 [], c_0.getD 0 []) (transposeBT x)).2).1.2]) := rfl

/-- C8 (multi-layer chaining): for `num_layers = 2`, non-bidirectional and
well-shaped inputs, the full two-layer `lstm_ref` call equals the
composition of two single-layer `lstm_ref` calls: layer 0 run on `x` from
`(h_0[0], c_0[0])`, then layer 1 run on layer 0's per-time-step output
sequence from `(h_0[1], c_0[1])`; the full call's output is the second
run's output and its final states stack the two runs' final states
(`h_n = h_n⁰ ++ h_n¹`, `c_n = c_n⁰ ++ c_n¹`). -/
theorem two_layer_chaining (sigmoid tanh : ℤ → ℤ) (x h_0 c_0 : List Mat)
    (W_ih W_hh : List Mat) (b_ih b_hh : List Vec) (s : List ℤ)
    (inp hsz B T : ℕ)
    (hB : x.length = B) (hB1 : 0 < B) (hT : (x.headD []).length = T) (hT1 : 0 < T)
    (hW0 : (W_ih.getD 0 []).length = 4 * hsz)
    (hWh0 : (W_hh.getD 0 []).length = 4 * hsz)
    (hb0 : (b_ih.getD 0 []).length = 4 * hsz)
    (hbh0 : (b_hh.getD 0 []).length = 4 * hsz)
    (hh0 : (h_0.getD 0 []).length = B)
    (hc0 : IsMat (c_0.getD 0 []) B hsz) :
    ∃ y0 hn0 cn0 y1 hn1 cn1,
      lstm_ref sigmoid tanh x [h_0.getD 0 []] [c_0.getD 0 []]
        [W_ih.getD 0 []] [W_hh.getD 0 []] [b_ih.getD 0 []] [b_hh.getD 0 []]
        s inp hsz 1 0 false = .ok (y0, hn0, cn0) ∧
      lstm_ref sigmoid tanh y0 [h_0.getD 1 []] [c_0.getD 1 []]
        [W_ih.getD 1 []] [W_hh.getD 1 []] [b_ih.getD 1 []] [b_hh.getD 1 []]
        s inp hsz 1 0 false = .ok (y1, hn1, cn1) ∧
      lstm_ref sigmoid tanh x h_0 c_0 W_ih W_hh b_ih b_hh s inp hsz 2 0 false
        = .ok (y1, hn0 ++ hn1, cn0 ++ cn1) := by
  have hseqlen : (transposeBT x).length = T := by rw [transposeBT_length, hT]
  have hseqmem : ∀ m ∈ transposeBT x, m.length = B := fun m hm => by
    rw [transposeBT_mem_length x m hm, hB]
  obtain ⟨S0c, S0ys, hS0⟩ : ∃ p ys, scanList (layerCell sigmoid tanh W_ih W_hh b_ih b_hh 0)
      (h_0.getD 0 [], c_0.getD 0 []) (transposeBT x) = (p, ys) := ⟨_, _, rfl⟩
  have hS0ys : ∀ y ∈ S0ys, IsMat y B hsz := by
    have h2 := (scanList_cell_shape sigmoid tanh (W_ih.getD 0 []) (W_hh.getD 0 [])
      (b_ih.getD 0 []) (b_hh.getD 0 []) B hsz hW0 hWh0 hb0 hbh0
      (transposeBT x) hseqmem (h_0.getD 0 []) (c_0.getD 0 []) hh0 hc0).2.2
    rw [show scanList (fun c xt => lstm_cell sigmoid tanh c xt (W_ih.getD 0 [])
        (W_hh.getD 0 []) (b_ih.getD 0 []) (b_hh.getD 0 []))
        (h_0.getD 0 [], c_0.getD 0 []) (transposeBT x) = (S0c, S0ys) from hS0] at h2
    exact h2
  have hS0len : S0ys.length = T := by
    have h2 := scanList_length (layerCell sigmoid tanh W_ih W_hh b_ih b_hh 0)
      (h_0.getD 0 [], c_0.getD 0 []) (transposeBT x)
    rw [hS0] at h2
    rw [show (S0c, S0ys).2 = S0ys from rfl] at h2
    rw [h2, hseqlen]
  have hinv : transposeBT (transposeBT S0ys) = S0ys :=
    transposeBT_involution S0ys T B hS0len
      (fun m hm => (hS0ys m hm).1) hT1 hB1
  obtain ⟨S1c, S1ys, hS1⟩ : ∃ p ys, scanList (layerCell sigmoid tanh W_ih W_hh b_ih b_hh 1)
      (h_0.getD 1 [], c_0.getD 1 []) S0ys = (p, ys) := ⟨_, _, rfl⟩
  refine ⟨transposeBT S0ys, [S0c.1], [S0c.2], transposeBT S1ys, [S1c.1], [S1c.2],
    ?_, ?_, ?_⟩
  · rw [show lstm_ref sigmoid tanh x [h_0.getD 0 []] [c_0.getD 0 []]
        [W_ih.getD 0 []] [W_hh.getD 0 []] [b_ih.getD 0 []] [b_hh.getD 0 []]
        s inp hsz 1 0 false
        = .ok (transposeBT (scanList (layerCell sigmoid tanh W_ih W_hh b_ih b_hh 0)
            (h_0.getD 0 [], c_0.getD 0 []) (transposeBT x)).2,
          [(scanList (layerCell sigmoid tanh W_ih W_hh b_ih b_hh 0)
            (h_0.getD 0 [], c_0.getD 0 []) (transposeBT x)).1.1],
          [(scanList (layerCell sigmoid tanh W_ih W_hh b_ih b_hh 0)
            (h_0.getD 0 [], c_0.getD 0 []) (transposeBT x)).1.2]) from rfl, hS0]
  · rw [show lstm_ref sigmoid tanh (transposeBT S0ys) [h_0.getD 1 []] [c_0.getD 1 []]
        [W_ih.getD 1 []] [W_hh.getD 1 []] [b_ih.getD 1 []] [b_hh.getD 1 []]
        s inp hsz 1 0 false
        = .ok (transposeBT (scanList (layerCell sigmoid tanh W_ih W_hh b_ih b_hh 1)
            (h_0.getD 1 [], c_0.getD 1 []) (transposeBT (transposeBT S0ys))).2,
          [(scanList (layerCell sigmoid tanh W_ih W_hh b_ih b_hh 1)
            (h_0.getD 1 [], c_0.getD 1 []) (transposeBT (transposeBT S0ys))).1.1],
          [(scanList (layerCell sigmoid tanh W_ih W_hh b_ih b_hh 1)
            (h_0.getD 1 [], c_0.getD 1 []) (transposeBT (transposeBT S0ys))).1.2]) from rfl,
      hinv, hS1]
  · rw [lstm_ref_uni_two, hS0]
    show Except.ok (transposeBT (scanList (layerCell sigmoid tanh W_ih W_hh b_ih b_hh 1)
        (h_0.getD 1 [], c_0.getD 1 []) S0ys).2,
      [S0c.1, (scanList (layerCell sigmoid tanh W_ih W_hh b_ih b_hh 1)
        (h_0.getD 1 [], c_0.getD 1 []) S0ys).1.1],
      [S0c.2, (scanList (layerCell sigmoid tanh W_ih W_hh b_ih b_hh 1)
        (h_0.getD 1 [], c_0.getD 1 []) S0ys).1.2]) = _
    rw [hS1]
    rfl

/-- Witness for `two_layer_chaining` at a concrete two-layer configuration
(`B = 1`, `T = 2`, `hidden_size = 1`, distinct layer weights). -/
theorem two_layer_chaining_witness :
    ∃ y0 hn0 cn0 y1 hn1 cn1,
      lstm_ref (fun v => v + 1) (fun v => v) [[[1], [2]]]
        [([[[0]], [[0]]] : List Mat).getD 0 []] [([[[1]], [[1]]] : List Mat).getD 0 []]
        [([[[1], [1], [1], [1]], [[2], [2], [2], [2]]] : List Mat).getD 0 []]
        [([[[1], [1], [1], [1]], [[1], [1], [1], [1]]] : List Mat).getD 0 []]
        [([[0, 0, 0, 0], [0, 0, 0, 0]] : List Vec).getD 0 []]
        [([[0, 0, 0, 0], [0, 0, 0, 0]] : List Vec).getD 0 []]
        [2] 1 1 1 0 false = .ok (y0, hn0, cn0) ∧
      lstm_ref (fun v => v + 1) (fun v => v) y0
        [([[[0]], [[0]]] : List Mat).getD 1 []] [([[[1]], [[1]]] : List Mat).getD 1 []]
        [([[[1], [1], [1], [1]], [[2], [2], [2], [2]]] : List Mat).getD 1 []]
        [([[[1], [1], [1], [1]], [[1], [1], [1], [1]]] : List Mat).getD 1 []]
        [([[0, 0, 0, 0], [0, 0, 0, 0]] : List Vec).getD 1 []]
        [([[0, 0, 0, 0], [0, 0, 0, 0]] : List Vec).getD 1 []]
        [2] 1 1 1 0 false = .ok (y1, hn1, cn1) ∧
      lstm_ref (fun v => v + 1) (fun v => v) [[[1], [2]]] [[[0]], [[0]]] [[[1]], [[1]]]
        [[[1], [1], [1], [1]], [[2], [2], [2], [2]]]
        [[[1], [1], [1], [1]], [[1], [1], [1], [1]]]
        [[0, 0, 0, 0], [0, 0, 0, 0]] [[0, 0, 0, 0], [0, 0, 0, 0]]
        [2] 1 1 2 0 false
        = .ok (y1, hn0 ++ hn1, cn0 ++ cn1) :=
  two_layer_chaining (fun v => v + 1) (fun v => v) [[[1], [2]]] [[[0]], [[0]]]
    [[[1]], [[1]]]
    [[[1], [1], [1], [1]], [[2], [2], [2], [2]]]
    [[[1], [1], [1], [1]], [[1], [1], [1], [1]]]
    [[0, 0, 0, 0], [0, 0, 0, 0]] [[0, 0, 0, 0], [0, 0, 0, 0]]
    [2] 1 1 1 2 (by decide) (by decide) (by decide) (by decide) (by decide)
    (by decide) (by decide) (by decide) (by decide) ⟨by decide, by decide⟩

/-- Witness for `lstm_bwd_seq_lengths_grad_zero`: a concrete stub kernel and
residual bundle with `seq_lengths = [3, 3]`; the returned `seq_lengths`
gradient has length 2 and all entries zero. -/
theorem lstm_bwd_seq_lengths_grad_zero_witness :
    (lstm_bwd (fun _ _ _ _ _ _ _ _ _ _ _ _ _ _ _ _ => ([], [], [], []))
      1 1 1 0 false ([], [], [], [], [3, 3], [], [], []) ([], [], [])).2.2.2.2.length
      = ([3, 3] : List ℤ).length ∧
    ∀ v ∈ (lstm_bwd (fun _ _ _ _ _ _ _ _ _ _ _ _ _ _ _ _ => ([], [], [], []))
      1 1 1 0 false ([], [], [], [], [3, 3], [], [], []) ([], [], [])).2.2.2.2,
      v = (0 : ℤ) :=
  lstm_bwd_seq_lengths_grad_zero (fun _ _ _ _ _ _ _ _ _ _ _ _ _ _ _ _ => ([], [], [], []))
    1 1 1 0 false ([], [], [], [], [3, 3], [], [], []) ([], [], [])
